import Mathlib

/-!
Verification of the simple Dubins path planner
(`src/coverage_binn/src/simple_dubins_path.cpp`).

The C++ code is embedded over the real numbers: `double` becomes `ℝ`,
the `<cmath>` functions become `Real.sin`, `Real.cos`, `Real.sqrt`,
`Real.arctan`, and `std::atan2` becomes `Complex.arg ⟨x, y⟩` (which has
exactly the atan2 range `(-π, π]`).  The two sampling `for` loops of
`generatePath` are embedded by computing, with `Nat.find`, the first
index at which the loop condition fails and emitting the samples with
smaller index; when the loop condition never fails (the C++ loop would
not terminate) the model emits no sample, a region no theorem below
relies on.  Output parameters passed by reference in C++ become returned
values paired with a success flag; on failure the functions return the
caller-supplied previous value unchanged, exactly as the C++ early
`return false` leaves the reference untouched.
-/

open Real

noncomputable section

namespace SimpleDubins

/-- `std::numeric_limits<double>::epsilon()`, the IEEE-754 binary64
machine epsilon `2⁻⁵²` (file-scope constant `epsilon` in the source). -/
def epsilon : ℝ := 1 / 2 ^ 52

/-- Modelled from the spec: the `Dir` enum is declared in the repository's
header, which is not part of the sources; spec §3 fixes its two values and
the algebraic sign carried by each (`+1` for `Left`, `-1` for `Right`),
which the source uses as the multiplier in `i += dir * angleIncrement`. -/
inductive Dir where
  | Right : Dir
  | Left : Dir
deriving DecidableEq

/-- Modelled from the spec: numeric value of the `Dir` enum constant,
`+1` for `Left` and `-1` for `Right` (spec §3). -/
def Dir.sign : Dir → ℝ
  | .Left => 1
  | .Right => -1

/-- A planar pose: position and heading.  The C++ `PoseStamped` carries a
quaternion; the external `tf::getYaw` conversion is out of scope (spec §1),
so the heading is carried directly.  Path samples emitted by the planner
set only the position, leaving the heading at its default `0`. -/
structure Pose2D where
  x : ℝ
  y : ℝ
  yaw : ℝ

/-- `std::atan2 y x`, embedded as the complex argument of `x + y·i`. -/
def atan2 (y x : ℝ) : ℝ := Complex.arg ⟨x, y⟩

/-- The `if (a < 0) a += 2*M_PI` wrap used throughout `generatePath` and
`tangentPoint`. -/
def wrap2pi (a : ℝ) : ℝ := if a < 0 then a + 2 * π else a

/-- Euclidean distance between the positions of two path points. -/
def ptDist (p q : Pose2D) : ℝ := Real.sqrt ((p.x - q.x) ^ 2 + (p.y - q.y) ^ 2)

/-- `SimpleDubinsPath::turningDirection`: which side of the heading line
the target lies on (source lines 21–34). -/
def turningDirection (x_q y_q theta_q x_n y_n : ℝ) : Dir :=
  if -(x_n - x_q) * Real.sin theta_q + (y_n - y_q) * Real.cos theta_q > 0 then
    Dir.Left
  else
    Dir.Right

/-- First candidate turning-circle center `(x_cr1, y_cr1)` of
`SimpleDubinsPath::turningCenter` (source lines 42–43). -/
def turningCenter1 (R x_q y_q theta_q : ℝ) : ℝ × ℝ :=
  (x_q + Real.sin theta_q * R, y_q - Real.cos theta_q * R)

/-- Second candidate turning-circle center `(x_cr2, y_cr2)` of
`SimpleDubinsPath::turningCenter` (source lines 44–45). -/
def turningCenter2 (R x_q y_q theta_q : ℝ) : ℝ × ℝ :=
  (x_q - Real.sin theta_q * R, y_q + Real.cos theta_q * R)

/-- Squared distance from the target `(x_n, y_n)` to a candidate center,
`pow(x_n - x_cr, 2) + pow(y_n - y_cr, 2)` (source lines 49–50). -/
def sqDistTo (x_n y_n : ℝ) (c : ℝ × ℝ) : ℝ :=
  (x_n - c.1) ^ 2 + (y_n - c.2) ^ 2

/-- `SimpleDubinsPath::turningCenter` (source lines 36–54): the candidate
whose squared distance to the target is (strictly) smaller; the second
candidate is the default kept on ties. -/
def turningCenter (R x_q y_q theta_q x_n y_n : ℝ) : ℝ × ℝ :=
  if sqDistTo x_n y_n (turningCenter1 R x_q y_q theta_q) <
      sqDistTo x_n y_n (turningCenter2 R x_q y_q theta_q) then
    turningCenter1 R x_q y_q theta_q
  else
    turningCenter2 R x_q y_q theta_q

/-- Discriminant `a*a + b*b - R*R` under the square root in
`SimpleDubinsPath::tangentLine` (source lines 67–79), with
`a = x_cr - x_n`, `b = y_n - y_cr`. -/
def tangentLineDisc (R x_n y_n x_cr y_cr : ℝ) : ℝ :=
  (x_cr - x_n) * (x_cr - x_n) + (y_n - y_cr) * (y_n - y_cr) - R * R

/-- Denominator used by the branch of `SimpleDubinsPath::tangentLine`
that is actually taken: `b - R` in the near-degenerate branch
`|b + R| < epsilon`, and `b + R` otherwise (source lines 66–80). -/
def tangentLineDenom (R x_n y_n x_cr y_cr : ℝ) : ℝ :=
  if |y_n - y_cr + R| < epsilon then y_n - y_cr - R else y_n - y_cr + R

/-- `SimpleDubinsPath::tangentLine` (source lines 56–88): the two tangent
angles `(beta1, beta2)`, each normalized into `[0, π)` by adding `π` when
negative. -/
def tangentLine (R x_n y_n x_cr y_cr : ℝ) : ℝ × ℝ :=
  let a := x_cr - x_n
  let b := y_n - y_cr
  let d := Real.sqrt (tangentLineDisc R x_n y_n x_cr y_cr)
  let den := tangentLineDenom R x_n y_n x_cr y_cr
  let beta1 :=
    if |b + R| < epsilon then 2 * Real.arctan ((a - d) / den)
    else 2 * Real.arctan ((a + d) / den)
  let beta2 :=
    if |b + R| < epsilon then 2 * Real.arctan ((a + d) / den)
    else 2 * Real.arctan ((a - d) / den)
  (if beta1 < 0 then beta1 + π else beta1,
   if beta2 < 0 then beta2 + π else beta2)

/-- One candidate tangent point of `SimpleDubinsPath::tangentPoint`
(source lines 104–128): circle–line intersection of the tangent line of
angle `beta` through the target, in a frame centered at the circle
center and translated back. -/
def tangentPointCand (x_n y_n x_cr y_cr beta : ℝ) : ℝ × ℝ :=
  let x2 := x_n - x_cr
  let y2 := y_n - y_cr
  let x1 := (x_n + Real.cos beta) - x_cr
  let y1 := (y_n + Real.sin beta) - y_cr
  let dx := x2 - x1
  let dy := y2 - y1
  let dr := Real.sqrt (dx * dx + dy * dy)
  let D := x1 * y2 - x2 * y1
  (D * dy / (dr * dr) + x_cr, -D * dx / (dr * dr) + y_cr)

/-- Wrapped signed angle from the vector (robot − center) to the vector
(candidate − center), `atan2(det, dot)` wrapped into `[0, 2π)`
(source lines 130–151). -/
def angleFromStart (x_q y_q x_cr y_cr : ℝ) (p : ℝ × ℝ) : ℝ :=
  let x1 := x_q - x_cr
  let y1 := y_q - y_cr
  let x2 := p.1 - x_cr
  let y2 := p.2 - y_cr
  wrap2pi (atan2 (x1 * y2 - y1 * x2) (x1 * x2 + y1 * y2))

/-- `SimpleDubinsPath::tangentPoint` (source lines 90–170): the candidate
reached first when rotating in the commanded direction; the second
candidate is the default kept on ties. -/
def tangentPoint (x_q y_q x_n y_n x_cr y_cr beta1 beta2 : ℝ) (dir : Dir) :
    ℝ × ℝ :=
  let p1 := tangentPointCand x_n y_n x_cr y_cr beta1
  let p2 := tangentPointCand x_n y_n x_cr y_cr beta2
  let angle1 := angleFromStart x_q y_q x_cr y_cr p1
  let angle2 := angleFromStart x_q y_q x_cr y_cr p2
  if dir = Dir.Left then (if angle1 < angle2 then p1 else p2)
  else if dir = Dir.Right then (if angle1 > angle2 then p1 else p2)
  else p2

/-- Angle of the `k`-th arc iterate, `i = startAngle + k·(dir·angleIncrement)`
(source line 199). -/
def arcAngle (start inc : ℝ) (dir : Dir) (k : ℕ) : ℝ :=
  start + k * (dir.sign * inc)

/-- Exit condition of the arc loop: the negation of the continuation test
`abs(i - stopAngle) > 2 * angleIncrement` (source line 198). -/
def arcExit (start stop inc : ℝ) (dir : Dir) (k : ℕ) : Prop :=
  |arcAngle start inc dir k - stop| ≤ 2 * inc

open Classical in
/-- Number of samples emitted by the arc loop: the first index at which
the continuation test of source line 198 fails.  If the C++ loop would
never terminate the model emits nothing. -/
def arcCount (start stop inc : ℝ) (dir : Dir) : ℕ :=
  if h : ∃ k, arcExit start stop inc dir k then Nat.find h else 0

/-- Samples emitted by the arc loop of `generatePath` (source lines
196–206): points on the circle boundary at the iterate angles. -/
def arcSamples (x_cr y_cr R start stop inc : ℝ) (dir : Dir) : List Pose2D :=
  (List.range (arcCount start stop inc dir)).map fun k =>
    ⟨x_cr + Real.cos (arcAngle start inc dir k) * R,
     y_cr + Real.sin (arcAngle start inc dir k) * R, 0⟩

/-- `dx_norm = dx / sqrt(dx*dx + dy*dy)` of the line phase
(source lines 209–211). -/
def lineNormX (x_lc y_lc x_n y_n : ℝ) : ℝ :=
  (x_n - x_lc) /
    Real.sqrt ((x_n - x_lc) * (x_n - x_lc) + (y_n - y_lc) * (y_n - y_lc))

/-- `dy_norm = dy / sqrt(dx*dx + dy*dy)` of the line phase
(source lines 210–212). -/
def lineNormY (x_lc y_lc x_n y_n : ℝ) : ℝ :=
  (y_n - y_lc) /
    Real.sqrt ((x_n - x_lc) * (x_n - x_lc) + (y_n - y_lc) * (y_n - y_lc))

/-- Exit condition of the line loop: negation of the continuation test
`abs(i * m_pathResolution * dx_norm - dx) > 2 * m_pathResolution`
(source line 216). -/
def lineExit (x_lc y_lc x_n y_n s : ℝ) (i : ℕ) : Prop :=
  |i * s * lineNormX x_lc y_lc x_n y_n - (x_n - x_lc)| ≤ 2 * s

open Classical in
/-- Number of samples emitted by the line loop: the first index at which
the continuation test of source line 216 fails. -/
def lineCount (x_lc y_lc x_n y_n s : ℝ) : ℕ :=
  if h : ∃ i, lineExit x_lc y_lc x_n y_n s i then Nat.find h else 0

/-- Samples emitted by the line loop of `generatePath` (source lines
214–224): points at integer multiples of the sample spacing along the
normalized tangent-point-to-target vector. -/
def lineSamples (x_lc y_lc x_n y_n s : ℝ) : List Pose2D :=
  (List.range (lineCount x_lc y_lc x_n y_n s)).map fun (i : ℕ) =>
    ⟨x_lc + i * s * lineNormX x_lc y_lc x_n y_n,
     y_lc + i * s * lineNormY x_lc y_lc x_n y_n, 0⟩

/-- The `±2π` adjustment of the stop angle (source lines 190–194). -/
def adjustStop (start stop : ℝ) (dir : Dir) : ℝ :=
  if dir = Dir.Left ∧ stop < start then stop + 2 * π
  else if dir = Dir.Right ∧ stop > start then stop - 2 * π
  else stop

/-- Wrapped start angle `atan2(y_q - y_cr, x_q - x_cr)` of the arc
(source lines 185–186). -/
def startAngleOf (x_q y_q x_cr y_cr : ℝ) : ℝ :=
  wrap2pi (atan2 (y_q - y_cr) (x_q - x_cr))

/-- Wrapped stop angle `atan2(y_lc - y_cr, x_lc - x_cr)` of the arc
(source lines 187–188). -/
def stopAngleOf (x_lc y_lc x_cr y_cr : ℝ) : ℝ :=
  wrap2pi (atan2 (y_lc - y_cr) (x_lc - x_cr))

/-- `SimpleDubinsPath::generatePath` (source lines 172–227).  The caller's
path container `path0` is cleared (`path.poses.clear()`, line 182) before
any sample is emitted, then the arc samples, the line samples and finally
the caller-supplied goal pose verbatim are appended. -/
def generatePath (R s x_q y_q x_n y_n x_cr y_cr x_lc y_lc : ℝ) (dir : Dir)
    (goal : Pose2D) (path0 : List Pose2D) : List Pose2D :=
  let startAngle := startAngleOf x_q y_q x_cr y_cr
  let stopAngle := adjustStop startAngle (stopAngleOf x_lc y_lc x_cr y_cr) dir
  let _cleared : List Pose2D := path0.take 0
  _cleared ++ arcSamples x_cr y_cr R startAngle stopAngle (s / R) dir ++
    lineSamples x_lc y_lc x_n y_n s ++ [goal]

/-- `SimpleDubinsPath::makePath` (source lines 229–272), with
`R = m_turningRadius` and `s = m_pathResolution`.  Returns the new
contents of the caller's path container together with the success flag;
on failure (`return false`, line 257) the container is untouched. -/
def makePath (R s : ℝ) (start goal : Pose2D) (path0 : List Pose2D) :
    List Pose2D × Bool :=
  let x_q := start.x
  let y_q := start.y
  let theta_q := start.yaw
  let x_n := goal.x
  let y_n := goal.y
  let dir := turningDirection x_q y_q theta_q x_n y_n
  let c := turningCenter R x_q y_q theta_q x_n y_n
  if Real.sqrt ((x_n - c.1) ^ 2 + (y_n - c.2) ^ 2) < R then (path0, false)
  else
    let betas := tangentLine R x_n y_n c.1 c.2
    let lc := tangentPoint x_q y_q x_n y_n c.1 c.2 betas.1 betas.2 dir
    (generatePath R s x_q y_q x_n y_n c.1 c.2 lc.1 lc.2 dir goal path0, true)

/-- `SimpleDubinsPath::getTargetHeading` (source lines 274–299).  Returns
the heading output together with the success flag; on failure
(`return false`, line 286) the caller's heading variable is untouched. -/
def getTargetHeading (R x_q y_q theta_q x_n y_n yaw0 : ℝ) : ℝ × Bool :=
  let dir := turningDirection x_q y_q theta_q x_n y_n
  let c := turningCenter R x_q y_q theta_q x_n y_n
  if Real.sqrt ((x_n - c.1) ^ 2 + (y_n - c.2) ^ 2) < R then (yaw0, false)
  else
    let betas := tangentLine R x_n y_n c.1 c.2
    let lc := tangentPoint x_q y_q x_n y_n c.1 c.2 betas.1 betas.2 dir
    (atan2 (y_n - lc.2) (x_n - lc.1), true)

/-! ### General helper lemmas -/

lemma epsilon_pos : (0:ℝ) < epsilon := by norm_num [epsilon]

/-- On the unreachable branch, `makePath` returns the caller's container
unchanged together with `false` (source lines 254–258). -/
lemma makePath_fail (R s : ℝ) (start goal : Pose2D) (path0 : List Pose2D)
    (hd : Real.sqrt
        ((goal.x - (turningCenter R start.x start.y start.yaw goal.x goal.y).1) ^ 2 +
         (goal.y - (turningCenter R start.x start.y start.yaw goal.x goal.y).2) ^ 2) < R) :
    makePath R s start goal path0 = (path0, false) := by
  simp only [makePath]
  rw [if_pos hd]

/-- Off the unreachable branch, `makePath` runs the whole pipeline and
returns the generated path together with `true`. -/
lemma makePath_succ (R s : ℝ) (start goal : Pose2D) (path0 : List Pose2D)
    (hd : ¬ Real.sqrt
        ((goal.x - (turningCenter R start.x start.y start.yaw goal.x goal.y).1) ^ 2 +
         (goal.y - (turningCenter R start.x start.y start.yaw goal.x goal.y).2) ^ 2) < R) :
    makePath R s start goal path0 =
      (generatePath R s start.x start.y goal.x goal.y
        (turningCenter R start.x start.y start.yaw goal.x goal.y).1
        (turningCenter R start.x start.y start.yaw goal.x goal.y).2
        (tangentPoint start.x start.y goal.x goal.y
          (turningCenter R start.x start.y start.yaw goal.x goal.y).1
          (turningCenter R start.x start.y start.yaw goal.x goal.y).2
          (tangentLine R goal.x goal.y
            (turningCenter R start.x start.y start.yaw goal.x goal.y).1
            (turningCenter R start.x start.y start.yaw goal.x goal.y).2).1
          (tangentLine R goal.x goal.y
            (turningCenter R start.x start.y start.yaw goal.x goal.y).1
            (turningCenter R start.x start.y start.yaw goal.x goal.y).2).2
          (turningDirection start.x start.y start.yaw goal.x goal.y)).1
        (tangentPoint start.x start.y goal.x goal.y
          (turningCenter R start.x start.y start.yaw goal.x goal.y).1
          (turningCenter R start.x start.y start.yaw goal.x goal.y).2
          (tangentLine R goal.x goal.y
            (turningCenter R start.x start.y start.yaw goal.x goal.y).1
            (turningCenter R start.x start.y start.yaw goal.x goal.y).2).1
          (tangentLine R goal.x goal.y
            (turningCenter R start.x start.y start.yaw goal.x goal.y).1
            (turningCenter R start.x start.y start.yaw goal.x goal.y).2).2
          (turningDirection start.x start.y start.yaw goal.x goal.y)).2
        (turningDirection start.x start.y start.yaw goal.x goal.y) goal path0,
       true) := by
  simp only [makePath]
  rw [if_neg hd]

/-- On the unreachable branch, `getTargetHeading` returns the caller's
heading variable unchanged together with `false` (source lines 283–287). -/
lemma getTargetHeading_fail (R x_q y_q theta_q x_n y_n yaw0 : ℝ)
    (hd : Real.sqrt
        ((x_n - (turningCenter R x_q y_q theta_q x_n y_n).1) ^ 2 +
         (y_n - (turningCenter R x_q y_q theta_q x_n y_n).2) ^ 2) < R) :
    getTargetHeading R x_q y_q theta_q x_n y_n yaw0 = (yaw0, false) := by
  simp only [getTargetHeading]
  rw [if_pos hd]

/-- Off the unreachable branch, `getTargetHeading` succeeds. -/
lemma getTargetHeading_snd_succ (R x_q y_q theta_q x_n y_n yaw0 : ℝ)
    (hd : ¬ Real.sqrt
        ((x_n - (turningCenter R x_q y_q theta_q x_n y_n).1) ^ 2 +
         (y_n - (turningCenter R x_q y_q theta_q x_n y_n).2) ^ 2) < R) :
    (getTargetHeading R x_q y_q theta_q x_n y_n yaw0).2 = true := by
  simp only [getTargetHeading]
  rw [if_neg hd]

/-- The list built by `generatePath` does not depend on the prior
contents of the caller's container (it is cleared first, source line 182). -/
lemma generatePath_indep (R s x_q y_q x_n y_n x_cr y_cr x_lc y_lc : ℝ)
    (dir : Dir) (goal : Pose2D) (p1 p2 : List Pose2D) :
    generatePath R s x_q y_q x_n y_n x_cr y_cr x_lc y_lc dir goal p1 =
    generatePath R s x_q y_q x_n y_n x_cr y_cr x_lc y_lc dir goal p2 := by
  simp [generatePath]

/-- `generatePath` always appends the caller-supplied goal verbatim as
the last element (source line 226). -/
lemma generatePath_getLast (R s x_q y_q x_n y_n x_cr y_cr x_lc y_lc : ℝ)
    (dir : Dir) (goal : Pose2D) (path0 : List Pose2D) :
    (generatePath R s x_q y_q x_n y_n x_cr y_cr x_lc y_lc dir goal
        path0).getLast? = some goal ∧
    generatePath R s x_q y_q x_n y_n x_cr y_cr x_lc y_lc dir goal path0 ≠
      [] := by
  constructor
  · simp only [generatePath]
    exact List.getLast?_concat _
  · simp [generatePath]

/-! ### Claim C3 -/

/-- C3: for every robot pose, target and positive radius, `turningCenter`
returns the candidate center whose squared Euclidean distance to the
target is smaller, the second candidate being returned on a tie. -/
theorem c3_turning_center_closest (R x_q y_q theta_q x_n y_n : ℝ)
    (hR : 0 < R) :
    (turningCenter R x_q y_q theta_q x_n y_n =
        turningCenter1 R x_q y_q theta_q ∨
      turningCenter R x_q y_q theta_q x_n y_n =
        turningCenter2 R x_q y_q theta_q) ∧
    sqDistTo x_n y_n (turningCenter R x_q y_q theta_q x_n y_n) ≤
      sqDistTo x_n y_n (turningCenter1 R x_q y_q theta_q) ∧
    sqDistTo x_n y_n (turningCenter R x_q y_q theta_q x_n y_n) ≤
      sqDistTo x_n y_n (turningCenter2 R x_q y_q theta_q) ∧
    (sqDistTo x_n y_n (turningCenter1 R x_q y_q theta_q) =
        sqDistTo x_n y_n (turningCenter2 R x_q y_q theta_q) →
      turningCenter R x_q y_q theta_q x_n y_n =
        turningCenter2 R x_q y_q theta_q) := by
  by_cases h : sqDistTo x_n y_n (turningCenter1 R x_q y_q theta_q) <
      sqDistTo x_n y_n (turningCenter2 R x_q y_q theta_q)
  · rw [turningCenter, if_pos h]
    exact ⟨Or.inl rfl, le_refl _, le_of_lt h,
      fun he => absurd h (by rw [he]; exact lt_irrefl _)⟩
  · rw [turningCenter, if_neg h]
    exact ⟨Or.inr rfl, not_lt.mp h, le_refl _, fun _ => rfl⟩

/-- Witness for C3 at a concrete input. -/
theorem c3_turning_center_closest_witness :
    (0:ℝ) < 1 ∧
    ((turningCenter 1 0 0 0 0 3 = turningCenter1 1 0 0 0 ∨
      turningCenter 1 0 0 0 0 3 = turningCenter2 1 0 0 0) ∧
    sqDistTo 0 3 (turningCenter 1 0 0 0 0 3) ≤
      sqDistTo 0 3 (turningCenter1 1 0 0 0) ∧
    sqDistTo 0 3 (turningCenter 1 0 0 0 0 3) ≤
      sqDistTo 0 3 (turningCenter2 1 0 0 0) ∧
    (sqDistTo 0 3 (turningCenter1 1 0 0 0) =
        sqDistTo 0 3 (turningCenter2 1 0 0 0) →
      turningCenter 1 0 0 0 0 3 = turningCenter2 1 0 0 0)) :=
  ⟨by norm_num, c3_turning_center_closest 1 0 0 0 0 3 (by norm_num)⟩

/-! ### Claim C4 -/

/-- C4: `tangentPoint` selects, among the two candidates built from
`beta1` and `beta2`, the one whose wrapped signed angle from the vector
(robot − center) is smaller when the commanded direction is `Left` and
larger when it is `Right`, the second candidate being kept on ties. -/
theorem c4_tangent_point_selection
    (x_q y_q x_n y_n x_cr y_cr beta1 beta2 : ℝ) (dir : Dir) :
    (dir = Dir.Left →
      (angleFromStart x_q y_q x_cr y_cr
          (tangentPointCand x_n y_n x_cr y_cr beta1) <
        angleFromStart x_q y_q x_cr y_cr
          (tangentPointCand x_n y_n x_cr y_cr beta2) →
        tangentPoint x_q y_q x_n y_n x_cr y_cr beta1 beta2 dir =
          tangentPointCand x_n y_n x_cr y_cr beta1) ∧
      (angleFromStart x_q y_q x_cr y_cr
          (tangentPointCand x_n y_n x_cr y_cr beta2) ≤
        angleFromStart x_q y_q x_cr y_cr
          (tangentPointCand x_n y_n x_cr y_cr beta1) →
        tangentPoint x_q y_q x_n y_n x_cr y_cr beta1 beta2 dir =
          tangentPointCand x_n y_n x_cr y_cr beta2)) ∧
    (dir = Dir.Right →
      (angleFromStart x_q y_q x_cr y_cr
          (tangentPointCand x_n y_n x_cr y_cr beta2) <
        angleFromStart x_q y_q x_cr y_cr
          (tangentPointCand x_n y_n x_cr y_cr beta1) →
        tangentPoint x_q y_q x_n y_n x_cr y_cr beta1 beta2 dir =
          tangentPointCand x_n y_n x_cr y_cr beta1) ∧
      (angleFromStart x_q y_q x_cr y_cr
          (tangentPointCand x_n y_n x_cr y_cr beta1) ≤
        angleFromStart x_q y_q x_cr y_cr
          (tangentPointCand x_n y_n x_cr y_cr beta2) →
        tangentPoint x_q y_q x_n y_n x_cr y_cr beta1 beta2 dir =
          tangentPointCand x_n y_n x_cr y_cr beta2)) := by
  constructor
  · intro hdir
    subst hdir
    constructor
    · intro h
      simp only [tangentPoint, if_pos rfl]
      rw [if_pos h]
      simp
    · intro h
      simp only [tangentPoint, if_pos rfl]
      rw [if_neg (not_lt.mpr h)]
      simp
  · intro hdir
    subst hdir
    have hne : (Dir.Right = Dir.Left) = False := by simp
    constructor
    · intro h
      simp only [tangentPoint, hne, if_false, if_pos rfl]
      rw [if_pos h]
      simp
    · intro h
      simp only [tangentPoint, hne, if_false, if_pos rfl]
      rw [if_neg (not_lt.mpr h)]
      simp

/-! ### Claim C9 -/

/-- C9 counterexample: with `R = b = 2⁻⁵⁴ > 0` and `a = 1` the stated
precondition `a² + b² ≥ R²` holds and the near-degenerate branch
`|b + R| < ε` is the branch taken, yet the denominator `b − R` used by
that branch is exactly zero, so totality fails as stated. -/
theorem c9_counterexample :
    (0:ℝ) < 1 / 2 ^ 54 ∧
    (1 / 2 ^ 54 : ℝ) * (1 / 2 ^ 54) ≤
      (1 - 0) * (1 - 0) + ((1 / 2 ^ 54 : ℝ) - 0) * (1 / 2 ^ 54 - 0) ∧
    |(1 / 2 ^ 54 : ℝ) - 0 + 1 / 2 ^ 54| < epsilon ∧
    tangentLineDenom (1 / 2 ^ 54) 0 (1 / 2 ^ 54) 1 0 = 0 := by
  refine ⟨by norm_num, by norm_num, ?_, ?_⟩
  · rw [abs_of_pos (by norm_num)]
    norm_num [epsilon]
  · rw [tangentLineDenom, if_pos]
    · norm_num
    · rw [abs_of_pos (by norm_num)]
      norm_num [epsilon]

/-- C9 (amended): under the precondition `a² + b² ≥ R²` with `R > 0` and
additionally `ε ≤ 2·R` (any physically meaningful radius), `tangentLine`
is total: the square-root argument is non-negative and the denominator
of the branch actually taken is non-zero. -/
theorem c9_tangent_line_total (R x_n y_n x_cr y_cr : ℝ)
    (hpre : R * R ≤
      (x_cr - x_n) * (x_cr - x_n) + (y_n - y_cr) * (y_n - y_cr))
    (hR : 0 < R) (heps : epsilon ≤ 2 * R) :
    0 ≤ tangentLineDisc R x_n y_n x_cr y_cr ∧
    tangentLineDenom R x_n y_n x_cr y_cr ≠ 0 := by
  constructor
  · rw [tangentLineDisc]
    linarith
  · by_cases h : |y_n - y_cr + R| < epsilon
    · rw [tangentLineDenom, if_pos h]
      intro h0
      have hb : y_n - y_cr = R := by linarith
      rw [hb, abs_of_pos (by linarith)] at h
      linarith
    · rw [tangentLineDenom, if_neg h]
      intro h0
      apply h
      rw [h0, abs_zero]
      exact epsilon_pos

/-- Witness for C9 (amended) at a concrete input. -/
theorem c9_tangent_line_total_witness :
    ((1:ℝ) * 1 ≤ (0 - 0) * (0 - 0) + ((3:ℝ) - 1) * (3 - 1)) ∧
    (0:ℝ) < 1 ∧ epsilon ≤ 2 * 1 ∧
    (0 ≤ tangentLineDisc 1 0 3 0 1 ∧ tangentLineDenom 1 0 3 0 1 ≠ 0) :=
  ⟨by norm_num, by norm_num, by norm_num [epsilon],
    c9_tangent_line_total 1 0 3 0 1 (by norm_num) (by norm_num)
      (by norm_num [epsilon])⟩

/-! ### Claim C1 -/

/-- C1: whenever the distance from the target to the selected
turning-circle center is at least `R`, `makePath` succeeds, the produced
path is non-empty, and its last element is the caller-supplied goal pose,
appended verbatim. -/
theorem c1_makePath_success (R s : ℝ) (start goal : Pose2D)
    (path0 : List Pose2D)
    (h : R ≤ Real.sqrt
        ((goal.x - (turningCenter R start.x start.y start.yaw goal.x goal.y).1) ^ 2 +
         (goal.y - (turningCenter R start.x start.y start.yaw goal.x goal.y).2) ^ 2)) :
    (makePath R s start goal path0).2 = true ∧
    (makePath R s start goal path0).1 ≠ [] ∧
    (makePath R s start goal path0).1.getLast? = some goal := by
  rw [makePath_succ R s start goal path0 (not_lt.mpr h)]
  exact ⟨rfl, (generatePath_getLast _ _ _ _ _ _ _ _ _ _ _ _ _).2,
    (generatePath_getLast _ _ _ _ _ _ _ _ _ _ _ _ _).1⟩

/-! ### Claim C2 -/

/-- C2: `makePath` and `getTargetHeading` fail exactly when the distance
from the target to the selected turning-circle center is strictly less
than `R`; on failure `makePath` leaves the caller's path container
unchanged and `getTargetHeading` leaves the caller's heading variable
unchanged, and at distance exactly `R` both operations proceed. -/
theorem c2_failure_iff_unreachable (R s : ℝ) (start goal : Pose2D)
    (path0 : List Pose2D) (yaw0 : ℝ) :
    ((makePath R s start goal path0).2 = false ↔
      Real.sqrt
        ((goal.x - (turningCenter R start.x start.y start.yaw goal.x goal.y).1) ^ 2 +
         (goal.y - (turningCenter R start.x start.y start.yaw goal.x goal.y).2) ^ 2) < R) ∧
    ((getTargetHeading R start.x start.y start.yaw goal.x goal.y yaw0).2 = false ↔
      Real.sqrt
        ((goal.x - (turningCenter R start.x start.y start.yaw goal.x goal.y).1) ^ 2 +
         (goal.y - (turningCenter R start.x start.y start.yaw goal.x goal.y).2) ^ 2) < R) ∧
    (Real.sqrt
        ((goal.x - (turningCenter R start.x start.y start.yaw goal.x goal.y).1) ^ 2 +
         (goal.y - (turningCenter R start.x start.y start.yaw goal.x goal.y).2) ^ 2) < R →
      makePath R s start goal path0 = (path0, false) ∧
      getTargetHeading R start.x start.y start.yaw goal.x goal.y yaw0 =
        (yaw0, false)) ∧
    (Real.sqrt
        ((goal.x - (turningCenter R start.x start.y start.yaw goal.x goal.y).1) ^ 2 +
         (goal.y - (turningCenter R start.x start.y start.yaw goal.x goal.y).2) ^ 2) = R →
      (makePath R s start goal path0).2 = true ∧
      (getTargetHeading R start.x start.y start.yaw goal.x goal.y yaw0).2 =
        true) := by
  by_cases hd : Real.sqrt
      ((goal.x - (turningCenter R start.x start.y start.yaw goal.x goal.y).1) ^ 2 +
       (goal.y - (turningCenter R start.x start.y start.yaw goal.x goal.y).2) ^ 2) < R
  · refine ⟨?_, ?_, fun _ => ⟨makePath_fail R s start goal path0 hd,
      getTargetHeading_fail R start.x start.y start.yaw goal.x goal.y yaw0 hd⟩,
      fun he => absurd hd (by rw [he]; exact lt_irrefl R)⟩
    · rw [makePath_fail R s start goal path0 hd]
      simpa using hd
    · rw [getTargetHeading_fail R start.x start.y start.yaw goal.x goal.y
        yaw0 hd]
      simpa using hd
  · refine ⟨?_, ?_, fun h => absurd h hd, fun _ => ?_⟩
    · rw [makePath_succ R s start goal path0 hd]
      simpa using hd
    · rw [getTargetHeading_snd_succ R start.x start.y start.yaw goal.x goal.y
        yaw0 hd]
      simpa using hd
    · exact ⟨by rw [makePath_succ R s start goal path0 hd],
        getTargetHeading_snd_succ R start.x start.y start.yaw goal.x goal.y
          yaw0 hd⟩

/-! ### Claim C10 -/

/-- C10: `generatePath` clears the caller's container before emitting, so
on every input where `makePath` succeeds the produced path is the same
whatever the container held before the call. -/
theorem c10_output_independent_of_prior (R s : ℝ) (start goal : Pose2D)
    (p1 p2 : List Pose2D) (h : (makePath R s start goal p1).2 = true) :
    (makePath R s start goal p1).1 = (makePath R s start goal p2).1 := by
  by_cases hd : Real.sqrt
      ((goal.x - (turningCenter R start.x start.y start.yaw goal.x goal.y).1) ^ 2 +
       (goal.y - (turningCenter R start.x start.y start.yaw goal.x goal.y).2) ^ 2) < R
  · rw [makePath_fail R s start goal p1 hd] at h
    exact absurd h (by simp)
  · rw [makePath_succ R s start goal p1 hd,
      makePath_succ R s start goal p2 hd]
    exact generatePath_indep _ _ _ _ _ _ _ _ _ _ _ _ p1 p2

/-! ### Claim C5 -/

/-- C5: every sample emitted by the arc phase of `generatePath` lies at
distance exactly `R` from the turning-circle center, for every input on
which the arc loop runs. -/
theorem c5_arc_samples_on_circle (x_cr y_cr R start stop inc : ℝ)
    (dir : Dir) (hR : 0 ≤ R) :
    ∀ p ∈ arcSamples x_cr y_cr R start stop inc dir,
      ptDist p ⟨x_cr, y_cr, 0⟩ = R := by
  intro p hp
  simp only [arcSamples, List.mem_map, List.mem_range] at hp
  obtain ⟨k, -, rfl⟩ := hp
  simp only [ptDist]
  have hE : (x_cr + Real.cos (arcAngle start inc dir k) * R - x_cr) ^ 2 +
      (y_cr + Real.sin (arcAngle start inc dir k) * R - y_cr) ^ 2 = R ^ 2 := by
    linear_combination (R ^ 2) * Real.sin_sq_add_cos_sq (arcAngle start inc dir k)
  rw [hE, Real.sqrt_sq hR]

/-- The arc loop at the concrete input of the C5 witness emits at least
one sample. -/
lemma arcCount_demo_pos : 0 < arcCount 0 2 (1/2) Dir.Left := by
  have hex : ∃ k, arcExit 0 2 (1/2) Dir.Left k := by
    refine ⟨2, ?_⟩
    have h2 : (0:ℝ) + (2:ℕ) * (Dir.Left.sign * (1/2)) - 2 = -1 := by
      push_cast
      norm_num [Dir.sign]
    simp only [arcExit, arcAngle, h2]
    rw [abs_neg, abs_one]
    norm_num
  classical
  rw [arcCount, dif_pos hex, Nat.find_pos]
  have h0 : (0:ℝ) + (0:ℕ) * (Dir.Left.sign * (1/2)) - 2 = -2 := by
    push_cast
    norm_num [Dir.sign]
  simp only [arcExit, arcAngle, h0]
  rw [abs_neg]
  norm_num

/-- Witness for C5 at a concrete input. -/
theorem c5_arc_samples_on_circle_witness :
    (0:ℝ) ≤ 1 ∧
    ptDist ⟨0 + Real.cos (arcAngle 0 (1/2) Dir.Left 0) * 1,
            0 + Real.sin (arcAngle 0 (1/2) Dir.Left 0) * 1, 0⟩
      ⟨0, 0, 0⟩ = 1 := by
  refine ⟨by norm_num, ?_⟩
  refine c5_arc_samples_on_circle 0 0 1 0 2 (1/2) Dir.Left (by norm_num) _ ?_
  simp only [arcSamples]
  exact List.mem_map.mpr ⟨0, List.mem_range.mpr arcCount_demo_pos, rfl⟩

/-! ### Claim C8 -/

/-- The `Dir` sign squares to one. -/
lemma Dir.sign_mul_self (dir : Dir) : dir.sign * dir.sign = 1 := by
  cases dir <;> norm_num [Dir.sign]

/-- The `Dir` sign has absolute value one. -/
lemma Dir.abs_sign (dir : Dir) : |dir.sign| = 1 := by
  cases dir <;> norm_num [Dir.sign]

/-- After the `±2π` adjustment, the swept angle agrees with the
commanded direction and is less than a full revolution. -/
lemma adjustStop_range (start stop : ℝ) (dir : Dir)
    (h1 : 0 ≤ start) (h2 : start < 2 * π) (h3 : 0 ≤ stop)
    (h4 : stop < 2 * π) :
    0 ≤ dir.sign * (adjustStop start stop dir - start) ∧
    dir.sign * (adjustStop start stop dir - start) < 2 * π := by
  cases dir with
  | Left =>
    by_cases hlt : stop < start
    · rw [adjustStop, if_pos ⟨rfl, hlt⟩]
      simp only [Dir.sign]
      constructor <;> nlinarith [Real.pi_pos]
    · rw [adjustStop, if_neg (by simp [hlt]), if_neg (by simp)]
      simp only [Dir.sign]
      constructor <;> nlinarith [Real.pi_pos]
  | Right =>
    by_cases hgt : stop > start
    · rw [adjustStop, if_neg (by simp), if_pos ⟨rfl, hgt⟩]
      simp only [Dir.sign]
      constructor <;> nlinarith [Real.pi_pos]
    · rw [adjustStop, if_neg (by simp), if_neg (by simp [hgt])]
      simp only [Dir.sign]
      constructor <;> nlinarith [Real.pi_pos]

/-- C8: for start and stop angles in `[0, 2π)`, positive sample spacing
and positive radius, the arc loop on the `±2π`-adjusted stop angle
reaches its exit condition after finitely many steps, the adjusted sweep
never goes the short way around against the commanded direction, and the
iterate angles are strictly monotone in the commanded direction
(increasing for `Left`, decreasing for `Right`). -/
theorem c8_arc_loop_terminates (start stop s R : ℝ) (dir : Dir)
    (k1 k2 : ℕ) (h1 : 0 ≤ start) (h2 : start < 2 * π) (h3 : 0 ≤ stop)
    (h4 : stop < 2 * π) (hs : 0 < s) (hR : 0 < R) (hk : k1 < k2) :
    (∃ k, arcExit start (adjustStop start stop dir) (s / R) dir k) ∧
    0 ≤ dir.sign * (adjustStop start stop dir - start) ∧
    dir.sign * (adjustStop start stop dir - start) < 2 * π ∧
    dir.sign * arcAngle start (s / R) dir k1 <
      dir.sign * arcAngle start (s / R) dir k2 := by
  have hinc : 0 < s / R := div_pos hs hR
  have hsq := Dir.sign_mul_self dir
  obtain ⟨hr0, hr2⟩ := adjustStop_range start stop dir h1 h2 h3 h4
  refine ⟨?_, hr0, hr2, ?_⟩
  · set Δ := dir.sign * (adjustStop start stop dir - start) with hΔ
    have hadj : adjustStop start stop dir - start = dir.sign * Δ := by
      rw [hΔ]
      linear_combination (-(adjustStop start stop dir - start)) * hsq
    refine ⟨⌊Δ / (s / R)⌋₊, ?_⟩
    have hfl : (⌊Δ / (s / R)⌋₊ : ℝ) ≤ Δ / (s / R) :=
      Nat.floor_le (div_nonneg hr0 hinc.le)
    have hfu : Δ / (s / R) < ⌊Δ / (s / R)⌋₊ + 1 := Nat.lt_floor_add_one _
    have hlow : (⌊Δ / (s / R)⌋₊ : ℝ) * (s / R) ≤ Δ := by
      calc (⌊Δ / (s / R)⌋₊ : ℝ) * (s / R) ≤ Δ / (s / R) * (s / R) := by
            exact mul_le_mul_of_nonneg_right hfl hinc.le
        _ = Δ := div_mul_cancel₀ Δ (ne_of_gt hinc)
    have hup : Δ < ((⌊Δ / (s / R)⌋₊ : ℝ) + 1) * (s / R) := by
      have := mul_lt_mul_of_pos_right hfu hinc
      rwa [div_mul_cancel₀ Δ (ne_of_gt hinc)] at this
    have hval : arcAngle start (s / R) dir ⌊Δ / (s / R)⌋₊ -
        adjustStop start stop dir =
        dir.sign * ((⌊Δ / (s / R)⌋₊ : ℝ) * (s / R) - Δ) := by
      rw [arcAngle, hΔ]
      linear_combination (adjustStop start stop dir - start) * hsq
    simp only [arcExit]
    rw [hval, abs_mul, Dir.abs_sign, one_mul, abs_of_nonpos (by linarith)]
    nlinarith [hup, hinc.le]
  · have hv1 : dir.sign * arcAngle start (s / R) dir k1 =
        dir.sign * start + (k1 : ℝ) * (s / R) := by
      rw [arcAngle]
      linear_combination ((k1 : ℝ) * (s / R)) * hsq
    have hv2 : dir.sign * arcAngle start (s / R) dir k2 =
        dir.sign * start + (k2 : ℝ) * (s / R) := by
      rw [arcAngle]
      linear_combination ((k2 : ℝ) * (s / R)) * hsq
    rw [hv1, hv2]
    have hklt : (k1 : ℝ) < (k2 : ℝ) := Nat.cast_lt.mpr hk
    nlinarith

/-- Witness for C8 at a concrete input. -/
theorem c8_arc_loop_terminates_witness :
    ((0:ℝ) ≤ 0 ∧ (0:ℝ) < 2 * π ∧ (0:ℝ) ≤ 1 ∧ (1:ℝ) < 2 * π ∧
      (0:ℝ) < 1 ∧ (0:ℝ) < 1 ∧ 0 < 1) ∧
    ((∃ k, arcExit 0 (adjustStop 0 1 Dir.Left) ((1:ℝ) / 1) Dir.Left k) ∧
    0 ≤ Dir.Left.sign * (adjustStop 0 1 Dir.Left - 0) ∧
    Dir.Left.sign * (adjustStop 0 1 Dir.Left - 0) < 2 * π ∧
    Dir.Left.sign * arcAngle 0 ((1:ℝ) / 1) Dir.Left 0 <
      Dir.Left.sign * arcAngle 0 ((1:ℝ) / 1) Dir.Left 1) := by
  have hpi : (3:ℝ) < π := Real.pi_gt_three
  refine ⟨⟨le_refl 0, by nlinarith, by norm_num, by nlinarith, by norm_num,
    by norm_num, by norm_num⟩, ?_⟩
  exact c8_arc_loop_terminates 0 1 1 1 Dir.Left 0 1 (le_refl 0)
    (by nlinarith) (by norm_num) (by nlinarith) (by norm_num) (by norm_num)
    (by norm_num)

/-! ### Claim C6 -/

/-- The exit condition of the line loop is reached at some index: one
sample-spacing past the tangent-point-to-target distance works. -/
lemma lineExit_exists (x_lc y_lc x_n y_n s : ℝ) (hs : 0 < s) :
    ∃ i, lineExit x_lc y_lc x_n y_n s i := by
  set dx := x_n - x_lc with hdx
  set dy := y_n - y_lc with hdy
  set nr := Real.sqrt (dx * dx + dy * dy) with hnr
  by_cases h0 : nr = 0
  · refine ⟨0, ?_⟩
    have hnn : (0:ℝ) ≤ dx * dx + dy * dy := by nlinarith
    have hsum : dx * dx + dy * dy = 0 := by
      have := Real.sqrt_eq_zero hnn
      rw [← hnr] at this
      exact this.mp h0
    have hdx0 : dx = 0 := by nlinarith
    simp only [lineExit, lineNormX, ← hdx, ← hdy, ← hnr, hdx0]
    simp [hs.le]
  · have hnrpos : 0 < nr :=
      lt_of_le_of_ne (by rw [hnr]; exact Real.sqrt_nonneg _) (Ne.symm h0)
    refine ⟨⌊nr / s⌋₊, ?_⟩
    have habs_dx : |dx| ≤ nr := by
      have h1 : |dx| = Real.sqrt (dx * dx) := (Real.sqrt_mul_self_eq_abs dx).symm
      rw [h1, hnr]
      exact Real.sqrt_le_sqrt (by nlinarith)
    have hfl : (⌊nr / s⌋₊ : ℝ) * s ≤ nr := by
      have h1 : (⌊nr / s⌋₊ : ℝ) ≤ nr / s :=
        Nat.floor_le (div_nonneg hnrpos.le hs.le)
      calc (⌊nr / s⌋₊ : ℝ) * s ≤ nr / s * s :=
            mul_le_mul_of_nonneg_right h1 hs.le
        _ = nr := div_mul_cancel₀ nr (ne_of_gt hs)
    have hfu : nr < ((⌊nr / s⌋₊ : ℝ) + 1) * s := by
      have h1 : nr / s < (⌊nr / s⌋₊ : ℝ) + 1 := Nat.lt_floor_add_one _
      have := mul_lt_mul_of_pos_right h1 hs
      rwa [div_mul_cancel₀ nr (ne_of_gt hs)] at this
    simp only [lineExit, lineNormX, ← hdx, ← hdy, ← hnr]
    have key : (⌊nr / s⌋₊ : ℝ) * s * (dx / nr) - dx =
        dx / nr * ((⌊nr / s⌋₊ : ℝ) * s - nr) := by
      field_simp
      ring
    rw [key, abs_mul]
    have h2 : |dx / nr| ≤ 1 := by
      rw [abs_div, abs_of_pos hnrpos]
      exact div_le_one_of_le₀ habs_dx hnrpos.le
    have h3 : |(⌊nr / s⌋₊ : ℝ) * s - nr| ≤ s := by
      rw [abs_of_nonpos (by linarith)]
      linarith
    calc |dx / nr| * |(⌊nr / s⌋₊ : ℝ) * s - nr| ≤ 1 * s := by
          exact mul_le_mul h2 h3 (abs_nonneg _) one_pos.le
      _ ≤ 2 * s := by linarith

/-- C6 counterexample: with the tangent point at the origin, the target
at `(0, 10)` straight above it and sample spacing `1`, the line loop of
`generatePath` emits no sample at all, although the remaining Euclidean
distance from the current (= stopping) sample to the target is `10`,
far more than two sample-spacings: the loop's stopping rule measures the
x-component `|i·s·dx_norm − dx|`, not the Euclidean distance. -/
theorem c6_counterexample :
    lineSamples 0 0 0 10 1 = [] ∧
    lineCount 0 0 0 10 1 = 0 ∧
    2 * 1 < ptDist ⟨0 + (0:ℕ) * 1 * lineNormX 0 0 0 10,
                    0 + (0:ℕ) * 1 * lineNormY 0 0 0 10, 0⟩ ⟨0, 10, 0⟩ := by
  classical
  have hX : lineNormX 0 0 0 10 = 0 := by
    simp [lineNormX]
  have hex : ∃ i, lineExit 0 0 0 10 1 i := by
    refine ⟨0, ?_⟩
    simp [lineExit, hX]
  have hcount : lineCount 0 0 0 10 1 = 0 := by
    rw [lineCount, dif_pos hex, Nat.find_eq_zero]
    simp [lineExit, hX]
  refine ⟨?_, hcount, ?_⟩
  · rw [lineSamples, hcount]
    simp
  · have hY : lineNormY 0 0 0 10 = 1 := by
      have h100 : Real.sqrt ((0 - 0) * (0 - 0) + (10 - 0) * (10 - 0)) = 10 := by
        rw [show ((0:ℝ) - 0) * (0 - 0) + (10 - 0) * (10 - 0) = 10 ^ 2 by norm_num,
          Real.sqrt_sq (by norm_num)]
      simp only [lineNormY, h100]
      norm_num
    simp only [ptDist, hX, hY]
    have h1 : ((0:ℝ) + (0:ℕ) * 1 * 0 - 0) ^ 2 + ((0:ℝ) + (0:ℕ) * 1 * 1 - 10) ^ 2 =
        10 ^ 2 := by
      push_cast
      norm_num
    rw [h1, Real.sqrt_sq (by norm_num)]
    norm_num

/-- C6 (amended): in the line phase, for positive sample spacing,
samples are emitted at integer multiples of the spacing `s` along the
normalized tangent-point-to-target vector starting at the tangent point,
and emission stops exactly when the absolute x-component of the
remaining displacement to the target, `|i·s·dx_norm − dx|`, first comes
within two sample-spacings — not the remaining Euclidean distance. -/
theorem c6_line_phase (x_lc y_lc x_n y_n s : ℝ) (i : ℕ) (hs : 0 < s) :
    lineSamples x_lc y_lc x_n y_n s =
      (List.range (lineCount x_lc y_lc x_n y_n s)).map (fun j =>
        ⟨x_lc + j * s * lineNormX x_lc y_lc x_n y_n,
         y_lc + j * s * lineNormY x_lc y_lc x_n y_n, 0⟩) ∧
    (i < lineCount x_lc y_lc x_n y_n s →
      2 * s < |(i : ℝ) * s * lineNormX x_lc y_lc x_n y_n - (x_n - x_lc)|) ∧
    |(lineCount x_lc y_lc x_n y_n s : ℝ) * s *
        lineNormX x_lc y_lc x_n y_n - (x_n - x_lc)| ≤ 2 * s := by
  classical
  have hex := lineExit_exists x_lc y_lc x_n y_n s hs
  refine ⟨by rw [lineSamples], ?_, ?_⟩
  · intro hi
    rw [lineCount, dif_pos hex] at hi
    have hmin := Nat.find_min hex hi
    simpa [lineExit, not_le] using hmin
  · rw [lineCount, dif_pos hex]
    have hspec := Nat.find_spec hex
    simpa [lineExit] using hspec

/-- Witness for C6 (amended) at a concrete input. -/
theorem c6_line_phase_witness :
    (0:ℝ) < 1 ∧
    (lineSamples 0 0 3 4 1 =
      (List.range (lineCount 0 0 3 4 1)).map (fun j =>
        ⟨0 + j * 1 * lineNormX 0 0 3 4, 0 + j * 1 * lineNormY 0 0 3 4, 0⟩) ∧
    (1 < lineCount 0 0 3 4 1 →
      2 * 1 < |((1:ℕ) : ℝ) * 1 * lineNormX 0 0 3 4 - (3 - 0)|) ∧
    |(lineCount 0 0 3 4 1 : ℝ) * 1 * lineNormX 0 0 3 4 - (3 - 0)| ≤ 2 * 1) :=
  ⟨by norm_num, c6_line_phase 0 0 3 4 1 1 (by norm_num)⟩

/-! ### Concrete run: start pose (0,0,0), goal (−1,2), R = 1, s = 1/20.

With heading 0 the candidate centers are (0,−1) and (0,1); the second is
closer to the target.  With `a = 1`, `b = 1` the tangent solve gives
`β₁ = 2·arctan 1 = π/2` and `β₂ = 0`, hence candidate tangent points
(−1,1) and (0,2); rotating left from the bottom of the circle, (0,2) is
reached first. -/

lemma demo_dir : turningDirection 0 0 0 (-1) 2 = Dir.Left := by
  rw [turningDirection, if_pos]
  norm_num

lemma demo_center : turningCenter 1 0 0 0 (-1) 2 = (0, 1) := by
  rw [turningCenter, if_neg]
  · norm_num [turningCenter2, Prod.ext_iff]
  · norm_num [sqDistTo, turningCenter1, turningCenter2]

lemma demo_tangentLine : tangentLine 1 (-1) 2 0 1 = (π / 2, 0) := by
  have hcond : ¬(|(2:ℝ) - 1 + 1| < epsilon) := by
    rw [abs_of_pos (by norm_num)]
    norm_num [epsilon]
  have hdisc : tangentLineDisc 1 (-1) 2 0 1 = 1 := by
    norm_num [tangentLineDisc]
  have hden : tangentLineDenom 1 (-1) 2 0 1 = 2 := by
    rw [tangentLineDenom, if_neg hcond]
    norm_num
  simp only [tangentLine]
  rw [if_neg hcond, if_neg hcond, hdisc, Real.sqrt_one, hden]
  have h1 : ((0:ℝ) - (-1) + 1) / 2 = 1 := by norm_num
  have h2 : ((0:ℝ) - (-1) - 1) / 2 = 0 := by norm_num
  rw [h1, h2, Real.arctan_one, Real.arctan_zero]
  rw [if_neg (not_lt.mpr (by positivity)), if_neg (by norm_num)]
  simp only [Prod.mk.injEq]
  constructor <;> ring

lemma demo_cand1 : tangentPointCand (-1) 2 0 1 (π / 2) = (-1, 1) := by
  simp only [tangentPointCand]
  rw [Real.cos_pi_div_two, Real.sin_pi_div_two]
  norm_num [Real.sqrt_one, Prod.ext_iff]

lemma demo_cand2 : tangentPointCand (-1) 2 0 1 0 = (0, 2) := by
  simp only [tangentPointCand]
  rw [Real.cos_zero, Real.sin_zero]
  norm_num [Real.sqrt_one, Prod.ext_iff]

lemma demo_atan2_down : atan2 (-1) 0 = -(π / 2) := by
  rw [atan2]
  have h : (⟨0, -1⟩ : ℂ) = -Complex.I := by
    simp [Complex.ext_iff]
  rw [h, Complex.arg_neg_I]

lemma demo_atan2_left : atan2 0 (-1) = π := by
  rw [atan2]
  have h : (⟨-1, 0⟩ : ℂ) = (-1 : ℂ) := by
    simp [Complex.ext_iff]
  rw [h, Complex.arg_neg_one]

lemma demo_angle1 : angleFromStart 0 0 0 1 (-1, 1) = -(π / 2) + 2 * π := by
  simp only [angleFromStart]
  have h1 : ((0:ℝ) - 0) * ((1:ℝ) - 1) - ((0:ℝ) - 1) * ((-1:ℝ) - 0) = -1 := by
    norm_num
  have h2 : ((0:ℝ) - 0) * ((-1:ℝ) - 0) + ((0:ℝ) - 1) * ((1:ℝ) - 1) = 0 := by
    norm_num
  rw [h1, h2, demo_atan2_down, wrap2pi, if_pos (neg_lt_zero.mpr (by positivity))]

lemma demo_angle2 : angleFromStart 0 0 0 1 (0, 2) = π := by
  simp only [angleFromStart]
  have h1 : ((0:ℝ) - 0) * ((2:ℝ) - 1) - ((0:ℝ) - 1) * ((0:ℝ) - 0) = 0 := by
    norm_num
  have h2 : ((0:ℝ) - 0) * ((0:ℝ) - 0) + ((0:ℝ) - 1) * ((2:ℝ) - 1) = -1 := by
    norm_num
  rw [h1, h2, demo_atan2_left, wrap2pi, if_neg (not_lt.mpr Real.pi_pos.le)]

lemma demo_tangentPoint :
    tangentPoint 0 0 (-1) 2 0 1 (π / 2) 0 Dir.Left = (0, 2) := by
  simp only [tangentPoint, if_pos rfl]
  rw [demo_cand1, demo_cand2, demo_angle1, demo_angle2]
  rw [if_neg (not_lt.mpr (by nlinarith [Real.pi_pos]))]
  simp

lemma demo_unreach_check :
    ¬ Real.sqrt (((-1:ℝ) - 0) ^ 2 + ((2:ℝ) - 1) ^ 2) < 1 := by
  have h2 : ((-1:ℝ) - 0) ^ 2 + ((2:ℝ) - 1) ^ 2 = 2 := by norm_num
  rw [h2]
  refine not_lt.mpr ?_
  calc (1:ℝ) = Real.sqrt 1 := Real.sqrt_one.symm
    _ ≤ Real.sqrt 2 := Real.sqrt_le_sqrt (by norm_num)

lemma demo_makePath (p0 : List Pose2D) :
    makePath 1 (1/20) ⟨0, 0, 0⟩ ⟨-1, 2, 0⟩ p0 =
      (generatePath 1 (1/20) 0 0 (-1) 2 0 1 0 2 Dir.Left ⟨-1, 2, 0⟩ p0,
        true) := by
  simp only [makePath, demo_dir, demo_center, demo_tangentLine,
    demo_tangentPoint]
  rw [if_neg demo_unreach_check]

lemma demo_lineNormX : lineNormX 0 2 (-1) 2 = -1 := by
  simp only [lineNormX]
  norm_num [Real.sqrt_one]

lemma demo_lineNormY : lineNormY 0 2 (-1) 2 = 0 := by
  simp only [lineNormY]
  norm_num

lemma demo_lineCount : lineCount 0 2 (-1) 2 (1/20) = 18 := by
  classical
  have hP : ∀ i : ℕ, lineExit 0 2 (-1) 2 (1/20) i ↔
      |(i:ℝ) * (1/20) * (-1) - (-1 - 0)| ≤ 2 * (1/20) := by
    intro i
    rw [lineExit, demo_lineNormX]
  have hex : ∃ i, lineExit 0 2 (-1) 2 (1/20) i := by
    refine ⟨18, (hP 18).mpr ?_⟩
    have h : ((18:ℕ):ℝ) * (1/20) * (-1) - (-1 - 0) = 1/10 := by
      push_cast
      norm_num
    rw [h, abs_of_pos (by norm_num)]
    norm_num
  rw [lineCount, dif_pos hex, Nat.find_eq_iff]
  constructor
  · refine (hP 18).mpr ?_
    have h : ((18:ℕ):ℝ) * (1/20) * (-1) - (-1 - 0) = 1/10 := by
      push_cast
      norm_num
    rw [h, abs_of_pos (by norm_num)]
    norm_num
  · intro m hm
    rw [hP m]
    have hm17 : (m:ℝ) ≤ 17 := by
      exact_mod_cast Nat.lt_succ_iff.mp hm
    have hval : (m:ℝ) * (1/20) * (-1) - (-1 - 0) = 1 - m / 20 := by
      ring
    rw [hval, abs_of_pos (by linarith), not_le]
    linarith

/-! ### Claim C7 -/

/-- In a chain over `l ++ [b]`, the last element of `l` is related to
`b`. -/
lemma chain_getLast_rel {α : Type} {Rel : α → α → Prop} {l : List α}
    (a b : α) (h : List.Chain' Rel (l ++ [b])) (ha : l.getLast? = some a) :
    Rel a b := by
  obtain ⟨-, -, h3⟩ := List.chain'_append.mp h
  exact h3 a (by rw [ha]; rfl) b rfl

/-- C7 counterexample: on the successful `makePath` run from pose
(0,0,0) to goal (−1,2) with `R = 1` and `path_resolution = 1/20`, the
last emitted line sample sits at x = −17/20 and the appended goal at
x = −1, a gap of `3/20 > 2·path_resolution`: consecutive path samples
are *not* all within `2×path_resolution` of each other. -/
theorem c7_counterexample :
    ¬ List.Chain' (fun p q => ptDist p q ≤ 2 * (1/20))
      (makePath 1 (1/20) ⟨0, 0, 0⟩ ⟨-1, 2, 0⟩ []).1 := by
  intro hch
  rw [demo_makePath []] at hch
  have hch' : List.Chain' (fun p q => ptDist p q ≤ 2 * (1/20))
      (generatePath 1 (1/20) 0 0 (-1) 2 0 1 0 2 Dir.Left ⟨-1, 2, 0⟩ []) :=
    hch
  simp only [generatePath, List.take_zero, List.nil_append] at hch'
  rw [lineSamples, demo_lineCount] at hch'
  rw [List.range_succ, List.map_append, List.map_cons, List.map_nil]
    at hch'
  have hrel := chain_getLast_rel
    (⟨0 + ((17:ℕ) : ℝ) * (1/20) * lineNormX 0 2 (-1) 2,
      2 + ((17:ℕ) : ℝ) * (1/20) * lineNormY 0 2 (-1) 2, 0⟩ : Pose2D)
    (⟨-1, 2, 0⟩ : Pose2D) hch'
    (by simp [List.getLast?_append, List.getLast?_concat])
  rw [demo_lineNormX, demo_lineNormY] at hrel
  simp only [ptDist] at hrel
  have heval : ((0:ℝ) + (17:ℕ) * (1/20) * (-1) - (-1)) ^ 2 +
      ((2:ℝ) + (17:ℕ) * (1/20) * 0 - 2) ^ 2 = (3/20) ^ 2 := by
    push_cast
    norm_num
  rw [heval, Real.sqrt_sq (by norm_num)] at hrel
  linarith

/-- For `x ≥ 0`, `|sin x| ≤ x`. -/
lemma abs_sin_le_of_nonneg {x : ℝ} (hx : 0 ≤ x) : |Real.sin x| ≤ x := by
  rcases eq_or_lt_of_le hx with h | hpos
  · rw [← h]
    simp
  · rw [abs_le]
    refine ⟨?_, (Real.sin_lt hpos).le⟩
    rcases le_or_lt 1 x with h1 | h1
    · have hb := Real.neg_one_le_sin x
      linarith
    · have hsp : 0 < Real.sin x :=
        Real.sin_pos_of_pos_of_lt_pi hpos (by nlinarith [Real.pi_gt_three])
      linarith

/-- `|sin x| ≤ |x|` for all real `x`. -/
lemma abs_sin_le_abs (x : ℝ) : |Real.sin x| ≤ |x| := by
  rcases le_or_lt 0 x with hx | hx
  · rw [abs_of_nonneg hx]
    exact abs_sin_le_of_nonneg hx
  · have h : |Real.sin x| = |Real.sin (-x)| := by
      rw [Real.sin_neg, abs_neg]
    rw [h, abs_of_neg hx]
    exact abs_sin_le_of_nonneg (by linarith)

/-- The normalized direction vector of the line phase has norm at most
one (exactly one when the tangent point and target differ; zero when
they coincide, by the `x/0 = 0` convention). -/
lemma lineNorm_sq_le_one (x_lc y_lc x_n y_n : ℝ) :
    lineNormX x_lc y_lc x_n y_n ^ 2 + lineNormY x_lc y_lc x_n y_n ^ 2 ≤
      1 := by
  simp only [lineNormX, lineNormY]
  set dx := x_n - x_lc with hdx
  set dy := y_n - y_lc with hdy
  by_cases h0 : Real.sqrt (dx * dx + dy * dy) = 0
  · rw [h0]
    simp
  · have hnn : (0:ℝ) ≤ dx * dx + dy * dy := by nlinarith
    have hpos : 0 < Real.sqrt (dx * dx + dy * dy) :=
      lt_of_le_of_ne (Real.sqrt_nonneg _) (Ne.symm h0)
    have hsq : Real.sqrt (dx * dx + dy * dy) ^ 2 = dx * dx + dy * dy :=
      Real.sq_sqrt hnn
    rw [div_pow, div_pow, div_add_div_same, div_le_one (by positivity),
      hsq]
    nlinarith

/-- C7 (amended): consecutive samples within the arc phase and within
the line phase are spaced at most `2×path_resolution` apart (indeed at
most one `path_resolution`) and at least `0` apart; the bound does not
extend across the phase transitions or to the appended goal. -/
theorem c7_within_phase_spacing
    (x_cr y_cr R start stop s x_lc y_lc x_n y_n : ℝ) (dir : Dir)
    (k i : ℕ) (hR : 0 < R) (hs : 0 ≤ s) :
    (k + 1 < arcCount start stop (s / R) dir →
      0 ≤ ptDist
          ⟨x_cr + Real.cos (arcAngle start (s / R) dir k) * R,
           y_cr + Real.sin (arcAngle start (s / R) dir k) * R, 0⟩
          ⟨x_cr + Real.cos (arcAngle start (s / R) dir (k + 1)) * R,
           y_cr + Real.sin (arcAngle start (s / R) dir (k + 1)) * R, 0⟩ ∧
      ptDist
          ⟨x_cr + Real.cos (arcAngle start (s / R) dir k) * R,
           y_cr + Real.sin (arcAngle start (s / R) dir k) * R, 0⟩
          ⟨x_cr + Real.cos (arcAngle start (s / R) dir (k + 1)) * R,
           y_cr + Real.sin (arcAngle start (s / R) dir (k + 1)) * R, 0⟩ ≤
        2 * s) ∧
    (i + 1 < lineCount x_lc y_lc x_n y_n s →
      0 ≤ ptDist
          ⟨x_lc + i * s * lineNormX x_lc y_lc x_n y_n,
           y_lc + i * s * lineNormY x_lc y_lc x_n y_n, 0⟩
          ⟨x_lc + (i + 1 : ℕ) * s * lineNormX x_lc y_lc x_n y_n,
           y_lc + (i + 1 : ℕ) * s * lineNormY x_lc y_lc x_n y_n, 0⟩ ∧
      ptDist
          ⟨x_lc + i * s * lineNormX x_lc y_lc x_n y_n,
           y_lc + i * s * lineNormY x_lc y_lc x_n y_n, 0⟩
          ⟨x_lc + (i + 1 : ℕ) * s * lineNormX x_lc y_lc x_n y_n,
           y_lc + (i + 1 : ℕ) * s * lineNormY x_lc y_lc x_n y_n, 0⟩ ≤
        2 * s) := by
  constructor
  · intro _
    refine ⟨Real.sqrt_nonneg _, ?_⟩
    simp only [ptDist]
    set d := dir.sign * (s / R) with hd
    have hstep : arcAngle start (s / R) dir (k + 1) =
        arcAngle start (s / R) dir k + d := by
      simp only [arcAngle, hd]
      push_cast
      ring
    set a := arcAngle start (s / R) dir k with ha
    rw [hstep]
    have hcos : Real.cos (a + d) * Real.cos a +
        Real.sin (a + d) * Real.sin a = Real.cos d := by
      have h' := Real.cos_sub (a + d) a
      rw [add_sub_cancel_left] at h'
      exact h'.symm
    have hhalf : Real.sin (d / 2) ^ 2 = 1 / 2 - Real.cos d / 2 := by
      have h' := Real.sin_sq_eq_half_sub (d / 2)
      rw [show 2 * (d / 2) = d by ring] at h'
      exact h'
    have hE : (x_cr + Real.cos a * R - (x_cr + Real.cos (a + d) * R)) ^ 2 +
        (y_cr + Real.sin a * R - (y_cr + Real.sin (a + d) * R)) ^ 2 =
        (2 * R * Real.sin (d / 2)) ^ 2 := by
      have hpy1 := Real.sin_sq_add_cos_sq a
      have hpy2 := Real.sin_sq_add_cos_sq (a + d)
      linear_combination (R ^ 2) * hpy1 + (R ^ 2) * hpy2 -
        2 * (R ^ 2) * hcos - 4 * (R ^ 2) * hhalf
    rw [hE, Real.sqrt_sq_eq_abs]
    have habs : |2 * R * Real.sin (d / 2)| =
        2 * R * |Real.sin (d / 2)| := by
      rw [abs_mul, abs_of_nonneg (by linarith)]
    rw [habs]
    have hd_abs : |d / 2| = s / R / 2 := by
      rw [hd, abs_div, abs_mul, Dir.abs_sign, one_mul,
        abs_of_nonneg (div_nonneg hs hR.le), abs_two]
    have hsin : |Real.sin (d / 2)| ≤ s / R / 2 := by
      rw [← hd_abs]
      exact abs_sin_le_abs _
    have hfin : 2 * R * (s / R / 2) = s := by
      field_simp
      ring
    calc 2 * R * |Real.sin (d / 2)| ≤ 2 * R * (s / R / 2) :=
          mul_le_mul_of_nonneg_left hsin (by linarith)
      _ = s := hfin
      _ ≤ 2 * s := by linarith
  · intro _
    refine ⟨Real.sqrt_nonneg _, ?_⟩
    simp only [ptDist]
    have h1 : (x_lc + i * s * lineNormX x_lc y_lc x_n y_n -
        (x_lc + (i + 1 : ℕ) * s * lineNormX x_lc y_lc x_n y_n)) ^ 2 +
        (y_lc + i * s * lineNormY x_lc y_lc x_n y_n -
        (y_lc + (i + 1 : ℕ) * s * lineNormY x_lc y_lc x_n y_n)) ^ 2 =
        s ^ 2 * (lineNormX x_lc y_lc x_n y_n ^ 2 +
          lineNormY x_lc y_lc x_n y_n ^ 2) := by
      push_cast
      ring
    rw [h1]
    have h2 : s ^ 2 * (lineNormX x_lc y_lc x_n y_n ^ 2 +
        lineNormY x_lc y_lc x_n y_n ^ 2) ≤ s ^ 2 * 1 := by
      have h3 := lineNorm_sq_le_one x_lc y_lc x_n y_n
      nlinarith [sq_nonneg s]
    calc Real.sqrt (s ^ 2 * (lineNormX x_lc y_lc x_n y_n ^ 2 +
          lineNormY x_lc y_lc x_n y_n ^ 2)) ≤
          Real.sqrt (s ^ 2 * 1) := Real.sqrt_le_sqrt h2
      _ = s := by rw [mul_one, Real.sqrt_sq hs]
      _ ≤ 2 * s := by linarith

/-! ### Remaining witnesses -/

/-- Witness for C4: on the concrete run, rotating left, the second
candidate (wrapped angle `π`) beats the first (wrapped angle `3π/2`). -/
theorem c4_tangent_point_selection_witness :
    tangentPoint 0 0 (-1) 2 0 1 (π / 2) 0 Dir.Left =
      tangentPointCand (-1) 2 0 1 0 := by
  refine ((c4_tangent_point_selection 0 0 (-1) 2 0 1 (π / 2) 0
    Dir.Left).1 rfl).2 ?_
  rw [demo_cand1, demo_cand2, demo_angle1, demo_angle2]
  nlinarith [Real.pi_pos]

/-- Witness for C1 at the concrete reachable input. -/
theorem c1_makePath_success_witness :
    (1:ℝ) ≤ Real.sqrt
        ((-1 - (turningCenter 1 0 0 0 (-1) 2).1) ^ 2 +
         (2 - (turningCenter 1 0 0 0 (-1) 2).2) ^ 2) ∧
    ((makePath 1 (1/20) ⟨0, 0, 0⟩ ⟨-1, 2, 0⟩ []).2 = true ∧
     (makePath 1 (1/20) ⟨0, 0, 0⟩ ⟨-1, 2, 0⟩ []).1 ≠ [] ∧
     (makePath 1 (1/20) ⟨0, 0, 0⟩ ⟨-1, 2, 0⟩ []).1.getLast? =
       some ⟨-1, 2, 0⟩) := by
  have hd : (1:ℝ) ≤ Real.sqrt
      ((-1 - (turningCenter 1 0 0 0 (-1) 2).1) ^ 2 +
       (2 - (turningCenter 1 0 0 0 (-1) 2).2) ^ 2) := by
    rw [demo_center]
    simpa using not_lt.mp demo_unreach_check
  exact ⟨hd, c1_makePath_success 1 (1/20) ⟨0, 0, 0⟩ ⟨-1, 2, 0⟩ []
    (by simpa using hd)⟩

lemma demo_center_half : turningCenter 1 0 0 0 0 (1/2) = (0, 1) := by
  rw [turningCenter, if_neg]
  · norm_num [turningCenter2, Prod.ext_iff]
  · norm_num [sqDistTo, turningCenter1, turningCenter2]

lemma demo_center_two : turningCenter 1 0 0 0 0 2 = (0, 1) := by
  rw [turningCenter, if_neg]
  · norm_num [turningCenter2, Prod.ext_iff]
  · norm_num [sqDistTo, turningCenter1, turningCenter2]

/-- Witness for C2: a target strictly inside the turning circle makes
both queries fail leaving their outputs untouched, and a target exactly
on the circle (distance `= R`) makes both proceed. -/
theorem c2_failure_iff_unreachable_witness :
    Real.sqrt ((0 - (turningCenter 1 0 0 0 0 (1/2)).1) ^ 2 +
      ((1:ℝ)/2 - (turningCenter 1 0 0 0 0 (1/2)).2) ^ 2) < 1 ∧
    makePath 1 (1/20) ⟨0, 0, 0⟩ ⟨0, 1/2, 0⟩ [⟨9, 9, 9⟩] =
      ([⟨9, 9, 9⟩], false) ∧
    getTargetHeading 1 0 0 0 0 (1/2) 7 = (7, false) ∧
    Real.sqrt ((0 - (turningCenter 1 0 0 0 0 2).1) ^ 2 +
      ((2:ℝ) - (turningCenter 1 0 0 0 0 2).2) ^ 2) = 1 ∧
    (makePath 1 (1/20) ⟨0, 0, 0⟩ ⟨0, 2, 0⟩ []).2 = true ∧
    (getTargetHeading 1 0 0 0 0 2 5).2 = true := by
  have hdh : Real.sqrt ((0 - (turningCenter 1 0 0 0 0 (1/2)).1) ^ 2 +
      ((1:ℝ)/2 - (turningCenter 1 0 0 0 0 (1/2)).2) ^ 2) < 1 := by
    rw [demo_center_half]
    have h1 : ((0:ℝ) - 0) ^ 2 + ((1:ℝ)/2 - 1) ^ 2 = (1/2) ^ 2 := by
      norm_num
    simp only
    rw [h1, Real.sqrt_sq (by norm_num)]
    norm_num
  have hdt : Real.sqrt ((0 - (turningCenter 1 0 0 0 0 2).1) ^ 2 +
      ((2:ℝ) - (turningCenter 1 0 0 0 0 2).2) ^ 2) = 1 := by
    rw [demo_center_two]
    have h1 : ((0:ℝ) - 0) ^ 2 + ((2:ℝ) - 1) ^ 2 = 1 := by norm_num
    simp only
    rw [h1, Real.sqrt_one]
  have H1 := c2_failure_iff_unreachable 1 (1/20) ⟨0, 0, 0⟩ ⟨0, 1/2, 0⟩
    [⟨9, 9, 9⟩] 7
  have H2 := c2_failure_iff_unreachable 1 (1/20) ⟨0, 0, 0⟩ ⟨0, 2, 0⟩ [] 5
  have hfail := H1.2.2.1 (by simpa using hdh)
  have hgo := H2.2.2.2 (by simpa using hdt)
  exact ⟨hdh, by simpa using hfail.1, by simpa using hfail.2, hdt,
    by simpa using hgo.1, by simpa using hgo.2⟩

/-- Witness for C10 at the concrete successful input, with two different
prior container contents. -/
theorem c10_output_independent_of_prior_witness :
    (makePath 1 (1/20) ⟨0, 0, 0⟩ ⟨-1, 2, 0⟩ [⟨5, 5, 5⟩]).2 = true ∧
    (makePath 1 (1/20) ⟨0, 0, 0⟩ ⟨-1, 2, 0⟩ [⟨5, 5, 5⟩]).1 =
      (makePath 1 (1/20) ⟨0, 0, 0⟩ ⟨-1, 2, 0⟩ []).1 := by
  have h : (makePath 1 (1/20) ⟨0, 0, 0⟩ ⟨-1, 2, 0⟩ [⟨5, 5, 5⟩]).2 =
      true := by
    rw [demo_makePath]
  exact ⟨h, c10_output_independent_of_prior 1 (1/20) ⟨0, 0, 0⟩
    ⟨-1, 2, 0⟩ [⟨5, 5, 5⟩] [] h⟩

lemma demo2_arcCount_gt_one : 1 < arcCount 0 2 ((1/2) / 1) Dir.Left := by
  classical
  have hex : ∃ k, arcExit 0 2 ((1/2) / 1) Dir.Left k := by
    refine ⟨4, ?_⟩
    simp only [arcExit, arcAngle, Dir.sign]
    have h : (0:ℝ) + (4:ℕ) * (1 * (1/2 / 1)) - 2 = 0 := by
      push_cast
      norm_num
    rw [h, abs_zero]
    norm_num
  rw [arcCount, dif_pos hex, Nat.lt_find_iff]
  intro m hm h
  simp only [arcExit, arcAngle, Dir.sign] at h
  obtain ⟨h1, -⟩ := abs_le.mp h
  have hm' : (m:ℝ) ≤ 1 := by exact_mod_cast hm
  have : (0:ℝ) + m * (1 * (1/2 / 1)) - 2 ≤ 1 * (1/2) - 2 := by
    push_cast
    nlinarith
  linarith

lemma demo2_lineNormX : lineNormX 0 0 3 4 = 3/5 := by
  simp only [lineNormX]
  rw [show ((3:ℝ) - 0) * (3 - 0) + ((4:ℝ) - 0) * (4 - 0) = 5 ^ 2 by
    norm_num, Real.sqrt_sq (by norm_num)]
  norm_num

lemma demo2_lineCount_gt_one : 1 < lineCount 0 0 3 4 (1/2) := by
  classical
  have hex : ∃ i, lineExit 0 0 3 4 (1/2) i := by
    refine ⟨7, ?_⟩
    simp only [lineExit, demo2_lineNormX]
    have h : ((7:ℕ):ℝ) * (1/2) * (3/5) - (3 - 0) = -(9/10) := by
      push_cast
      norm_num
    rw [h, abs_neg, abs_of_pos (by norm_num)]
    norm_num
  rw [lineCount, dif_pos hex, Nat.lt_find_iff]
  intro m hm h
  simp only [lineExit, demo2_lineNormX] at h
  obtain ⟨h1, -⟩ := abs_le.mp h
  have hm' : (m:ℝ) ≤ 1 := by exact_mod_cast hm
  have : (m:ℝ) * (1/2) * (3/5) - (3 - 0) ≤ 1 * (1/2) * (3/5) - 3 := by
    nlinarith
  linarith

/-- Witness for C7 (amended) at concrete inputs: an adjacent arc pair
and an adjacent line pair, both within `2×path_resolution`. -/
theorem c7_within_phase_spacing_witness :
    ((0:ℝ) < 1 ∧ (0:ℝ) ≤ 1/2 ∧ 0 + 1 < arcCount 0 2 ((1/2) / 1) Dir.Left ∧
      0 + 1 < lineCount 0 0 3 4 (1/2)) ∧
    (0 ≤ ptDist
        ⟨0 + Real.cos (arcAngle 0 ((1/2) / 1) Dir.Left 0) * 1,
         0 + Real.sin (arcAngle 0 ((1/2) / 1) Dir.Left 0) * 1, 0⟩
        ⟨0 + Real.cos (arcAngle 0 ((1/2) / 1) Dir.Left (0 + 1)) * 1,
         0 + Real.sin (arcAngle 0 ((1/2) / 1) Dir.Left (0 + 1)) * 1, 0⟩ ∧
      ptDist
        ⟨0 + Real.cos (arcAngle 0 ((1/2) / 1) Dir.Left 0) * 1,
         0 + Real.sin (arcAngle 0 ((1/2) / 1) Dir.Left 0) * 1, 0⟩
        ⟨0 + Real.cos (arcAngle 0 ((1/2) / 1) Dir.Left (0 + 1)) * 1,
         0 + Real.sin (arcAngle 0 ((1/2) / 1) Dir.Left (0 + 1)) * 1, 0⟩ ≤
        2 * (1/2)) ∧
    (0 ≤ ptDist
        ⟨0 + (0:ℕ) * (1/2) * lineNormX 0 0 3 4,
         0 + (0:ℕ) * (1/2) * lineNormY 0 0 3 4, 0⟩
        ⟨0 + ((0 + 1 : ℕ)) * (1/2) * lineNormX 0 0 3 4,
         0 + ((0 + 1 : ℕ)) * (1/2) * lineNormY 0 0 3 4, 0⟩ ∧
      ptDist
        ⟨0 + (0:ℕ) * (1/2) * lineNormX 0 0 3 4,
         0 + (0:ℕ) * (1/2) * lineNormY 0 0 3 4, 0⟩
        ⟨0 + ((0 + 1 : ℕ)) * (1/2) * lineNormX 0 0 3 4,
         0 + ((0 + 1 : ℕ)) * (1/2) * lineNormY 0 0 3 4, 0⟩ ≤
        2 * (1/2)) := by
  have H := c7_within_phase_spacing 0 0 1 0 2 (1/2) 0 0 3 4 Dir.Left 0 0
    (by norm_num) (by norm_num)
  exact ⟨⟨by norm_num, by norm_num, by simpa using demo2_arcCount_gt_one,
    by simpa using demo2_lineCount_gt_one⟩,
    H.1 (by simpa using demo2_arcCount_gt_one),
    H.2 (by simpa using demo2_lineCount_gt_one)⟩

end SimpleDubins

end
